import Mathlib

/-!
# model-api-proxy: the request path of `ProxyServer/Main.go`

A shallow embedding of `validateUser`, `logAccess`, `proxyHandler`,
`forwardRequest` and `copyResponse`, together with the parts of the Go
standard library they call (`strings.TrimPrefix`, `strings.TrimSpace`,
`strings.Index`, `strings.Join`, `http.Header.Get/Set`, `http.Error`).

Conventions.
* A Go string is a list of Unicode code points (well-formed UTF-8 text).
  The only byte-level slice in the source, `path[1:]`, is modelled as dropping
  the first character; the two agree whenever that character is one byte long,
  in particular for every path that begins with `/`.
* The SQLite tables are lists of rows in insertion order.  `QueryRow(..).Scan`
  yields the first matching row, `sql.ErrNoRows` when there is none, or some
  other error; whether a call fails is read from the environment `Env`.
* `http.Header` is a finite map from header names to lists of values.  The
  names used by the handler (`Authorization`, `Content-Type`, ...) are already
  in canonical MIME form, and so are the names produced by `net/http` when it
  parses a message, hence `CanonicalMIMEHeaderKey` acts as the identity.
* Messages written with `log.Printf` are not part of the state.
-/

namespace ModelApiProxy

/-- Go `string`. -/
abbrev Str := List Char

/-! ## Package `strings` -/

/-- Go `strings.HasPrefix`. -/
def HasPrefix (s pre : Str) : Bool := pre.isPrefixOf s

/-- Go `strings.TrimPrefix`: `s` without the leading `pre`, or `s` itself. -/
def TrimPrefix (s pre : Str) : Str :=
  if HasPrefix s pre then s.drop pre.length else s

/-- Go `unicode.IsSpace`: the Latin-1 spaces and the code points with the
Unicode White_Space property. -/
def IsSpace (c : Char) : Bool :=
  let n := c.toNat
  n == 0x09 || n == 0x0A || n == 0x0B || n == 0x0C || n == 0x0D || n == 0x20 ||
  n == 0x85 || n == 0xA0 || n == 0x1680 || (0x2000 ≤ n && n ≤ 0x200A) ||
  n == 0x2028 || n == 0x2029 || n == 0x202F || n == 0x205F || n == 0x3000

/-- Go `strings.TrimLeftFunc(s, unicode.IsSpace)`. -/
def TrimLeftSpace (s : Str) : Str := s.dropWhile IsSpace

/-- Go `strings.TrimRightFunc(s, unicode.IsSpace)`. -/
def TrimRightSpace (s : Str) : Str := s.rdropWhile IsSpace

/-- Go `strings.TrimSpace`: all leading and trailing white space removed. -/
def TrimSpace (s : Str) : Str := TrimRightSpace (TrimLeftSpace s)

/-- Search loop of `strings.Index`: `i` is the offset of `s` in the original. -/
def indexFrom (substr : Str) : Str → Nat → Int
  | [], i => if substr = [] then (i : Int) else -1
  | c :: s, i => if substr.isPrefixOf (c :: s) then (i : Int) else indexFrom substr s (i + 1)

/-- Go `strings.Index`: offset of the first instance of `substr`, or `-1`. -/
def Index (s substr : Str) : Int := indexFrom substr s 0

/-- Go `strings.Join`. -/
def Join (elems : List Str) (sep : Str) : Str := sep.intercalate elems

/-! ## Package `net/http` -/

/-- Go `http.Header`, a `map[string][]string`. -/
abbrev Header := AList (fun _ : Str => List Str)

/-- Go `Header.Get`: the first value stored under `key`, or the empty string. -/
def Header.Get (h : Header) (key : Str) : Str :=
  match h.lookup key with
  | some (v :: _) => v
  | _ => []

/-- Go `Header.Set`: `key` now holds the single value `value`. -/
def Header.Set (h : Header) (key value : Str) : Header := h.insert key [value]

/-- Go `url.URL`, of which only `Path` is read. -/
structure URL where
  Path : Str
deriving DecidableEq

/-- Go `http.Request` as received by the handler. -/
structure Request where
  Method : Str
  URL : URL
  Header : Header
  Body : Str

/-- The request built by `forwardRequest` with `http.NewRequest`.  `URL` is
the target as `http.NewRequest` parsed it from the string it was given,
rendered back to text. -/
structure UpstreamRequest where
  Method : Str
  URL : Str
  Header : Header
  Body : Str

/-- Go `http.Response` as returned by `client.Do`. -/
structure Response where
  StatusCode : Nat
  Header : Header
  Body : Str

/-- State of an `http.ResponseWriter`: headers, status line (once written) and
the bytes of the body written so far. -/
structure ResponseWriter where
  Header : Header
  StatusCode : Option Nat
  Body : Str

/-- Go `ResponseWriter.WriteHeader`: `none` is the panic of `net/http` on a
code below 100 or above 999.  The server hands the handler a writer without a
status and no path through the handler calls `WriteHeader` twice, so the
branch of `net/http` that ignores a second call is never taken; likewise
`client.Do` consumes interim `1xx` answers other than `101`, so no such code
is relayed. -/
def ResponseWriter.WriteHeader (w : ResponseWriter) (code : Nat) : Option ResponseWriter :=
  if code < 100 ∨ code > 999 then none else some { w with StatusCode := some code }

/-- Go `ResponseWriter.Write`. -/
def ResponseWriter.Write (w : ResponseWriter) (p : Str) : ResponseWriter :=
  { w with Body := w.Body ++ p }

def StatusUnauthorized : Nat := 401
def StatusNotFound : Nat := 404
def StatusInternalServerError : Nat := 500

/-- Go `http.Error`: plain-text headers, the status code, then the message and
a newline; `none` when `WriteHeader` panics. -/
def httpError (w : ResponseWriter) (error : Str) (code : Nat) : Option ResponseWriter :=
  let w := { w with Header := w.Header.Set "Content-Type".toList "text/plain; charset=utf-8".toList }
  let w := { w with Header := w.Header.Set "X-Content-Type-Options".toList "nosniff".toList }
  match w.WriteHeader code with
  | none => none
  | some w => some (w.Write (error ++ ['\n']))

/-! ## The store -/

/-- Row of table `proxy_user`. -/
structure ProxyUser where
  user_id : Str
  user_name : Str
  api_key : Str
deriving DecidableEq

/-- Row of table `proxy_provider`. -/
structure ProxyProvider where
  provider_name : Str
  api_url : Str
  api_key : Str
deriving DecidableEq

/-- Go `AccessLog`, a row of table `proxy_access_log`. -/
structure AccessLog where
  UserID : Str
  Timestamp : Nat
  Endpoint : Str
deriving DecidableEq

/-- The database behind the global handle `db`. -/
structure DB where
  proxy_user : List ProxyUser
  proxy_provider : List ProxyProvider
  proxy_access_log : List AccessLog
deriving DecidableEq

/-- The schema constraints of `initDB`: `user_id` and `provider_name` are
primary keys. -/
def DB.PrimaryKeys (db : DB) : Prop :=
  (db.proxy_user.map (·.user_id)).Nodup ∧ (db.proxy_provider.map (·.provider_name)).Nodup

/-- Outcome of `QueryRow(..).Scan(..)`. -/
inductive ScanResult (α : Type) where
  | row (a : α)
  | errNoRows
  | err
deriving DecidableEq

/-- What lies outside the process while one request is handled. -/
structure Env where
  /-- the query on `proxy_user` fails with an error other than `ErrNoRows` -/
  userQueryErr : Bool
  /-- the query on `proxy_provider` fails with an error other than `ErrNoRows` -/
  providerQueryErr : Bool
  /-- the insert into `proxy_access_log` fails -/
  logExecErr : Bool
  /-- value of `CURRENT_TIMESTAMP` at the insert -/
  now : Nat
  /-- `http.NewRequest` on a method and a URL string: the URL it parsed,
  rendered back to text, or `none` when it returns an error -/
  newRequest : Str → Str → Option Str
  /-- `client.Do`: the upstream answer, or `none` for a transport error -/
  clientDo : UpstreamRequest → Option Response

/-! ## `ProxyServer/Main.go` -/

/-- The query of `validateUser`:
`SELECT user_id FROM proxy_user WHERE api_key = ?`, scanned into one string. -/
def queryUser (env : Env) (db : DB) (apiKey : Str) : ScanResult Str :=
  if env.userQueryErr then .err
  else match db.proxy_user.find? (fun u => u.api_key == apiKey) with
    | some u => .row u.user_id
    | none => .errNoRows

/-- Go `validateUser`: the user id and `true` when a row is found, the empty
string and `false` when there is none or the query fails. -/
def validateUser (env : Env) (db : DB) (apiKey : Str) : Str × Bool :=
  match queryUser env db apiKey with
  | .row userID => (userID, true)
  | .errNoRows => ([], false)
  | .err => ([], false)

/-- Go `logAccess`: one row inserted into `proxy_access_log`; a failing insert
is only reported to the process log. -/
def logAccess (env : Env) (db : DB) (userID endpoint : Str) : DB :=
  if env.logExecErr then db
  else { db with proxy_access_log := db.proxy_access_log ++ [⟨userID, env.now, endpoint⟩] }

/-- The query of `proxyHandler`:
`SELECT api_url, api_key FROM proxy_provider WHERE provider_name = ?`. -/
def queryProvider (env : Env) (db : DB) (provider : Str) : ScanResult (Str × Str) :=
  if env.providerQueryErr then .err
  else match db.proxy_provider.find? (fun p => p.provider_name == provider) with
    | some p => .row (p.api_url, p.api_key)
    | none => .errNoRows

/-- Line 111 of `proxyHandler`: the key handed to `validateUser`. -/
def bearerKey (authorization : Str) : Str :=
  TrimSpace (TrimPrefix authorization "Bearer ".toList)

/-- Lines 120-125 of `proxyHandler`: the provider name taken from the path.
`none` stands for the run-time panic of `path[1:]` on an empty path. -/
def providerOf (path : Str) : Option Str :=
  match path with
  | [] => none
  | _ :: provider =>
    let endIndex := Index provider ['/']
    if endIndex > 0 then some (provider.take endIndex.toNat) else some provider

/-- The header loop and the two `Set` calls of `forwardRequest`. -/
def forwardHeader (r : Request) (apiKey : Str) : Header :=
  let h : Header := r.Header.foldl (fun acc key value => acc.insert key value) ∅
  let h := h.Set "Authorization".toList ("Bearer ".toList ++ apiKey)
  h.Set "Content-Type".toList "application/json".toList

/-- The request that `forwardRequest` hands to `client.Do`: it is built by
`http.NewRequest(r.Method, apiURL+path, r.Body)` and then given the headers;
`none` when `http.NewRequest` returns an error.  The server never delivers a
request with an empty method, for which `http.NewRequest` would put `GET`. -/
def newUpstreamRequest (env : Env) (r : Request) (apiURL apiKey path : Str) :
    Option UpstreamRequest :=
  match env.newRequest r.Method (apiURL ++ path) with
  | none => none
  | some url =>
    some
      { Method := r.Method
        URL := url
        Header := forwardHeader r apiKey
        Body := r.Body }

/-- Go `forwardRequest`; `none` is a non-nil error. -/
def forwardRequest (env : Env) (r : Request) (apiURL apiKey path : Str) : Option Response :=
  match newUpstreamRequest env r apiURL apiKey path with
  | none => none
  | some req => env.clientDo req

/-- Go `copyResponse`; `none` when `w.WriteHeader(resp.StatusCode)` panics. -/
def copyResponse (w : ResponseWriter) (resp : Response) : Option ResponseWriter :=
  let w := { w with
    Header := resp.Header.foldl (fun h key value => h.Set key (Join value ", ".toList)) w.Header }
  match w.WriteHeader resp.StatusCode with
  | none => none
  | some w => some (w.Write resp.Body)

/-- Go `proxyHandler`.  The first component is the response written to the
caller, `none` when the handler panics (in `path[1:]` or in `WriteHeader`)
before writing anything; the second is the database after the call. -/
def proxyHandler (env : Env) (db : DB) (w : ResponseWriter) (r : Request) :
    Option ResponseWriter × DB :=
  let apiKey := r.Header.Get "Authorization".toList
  if apiKey = [] then
    (httpError w "Unauthorized".toList StatusUnauthorized, db)
  else
    let apiKey := bearerKey apiKey
    match validateUser env db apiKey with
    | (_, false) => (httpError w "Unauthorized".toList StatusUnauthorized, db)
    | (userID, true) =>
      let path := r.URL.Path
      match providerOf path with
      | none => (none, db)
      | some provider =>
        match queryProvider env db provider with
        | .errNoRows => (httpError w "Provider not found".toList StatusNotFound, db)
        | .err => (httpError w "Internal Server Error".toList StatusInternalServerError, db)
        | .row (apiURL, modelAPIKey) =>
          let db := logAccess env db userID r.URL.Path
          match forwardRequest env r apiURL modelAPIKey (TrimPrefix path ('/' :: provider)) with
          | none => (httpError w "Internal Server Error".toList StatusInternalServerError, db)
          | some resp => (copyResponse w resp, db)

/-- Rendering of the URLs used in the samples: `url.Parse` followed by
`URL.String` writes a space of the path as `%20` and returns a URL made of
letters, digits, `:`, `/` and `.` unchanged. -/
def sampleNewRequest (_method rawurl : Str) : Option Str :=
  some (rawurl.flatMap fun c => if c = ' ' then "%20".toList else [c])

/-- An environment in which nothing fails and the upstream answers `200`. -/
def okEnv : Env :=
  { userQueryErr := false
    providerQueryErr := false
    logExecErr := false
    now := 7
    newRequest := sampleNewRequest
    clientDo := fun _ => some ⟨200, ∅, "ok".toList⟩ }

/-- A writer on which nothing has been written yet. -/
def freshWriter : ResponseWriter := ⟨∅, none, []⟩

/-- A request with the given path and a single `Authorization` value. -/
def mkRequest (path authorization : Str) : Request :=
  { Method := "POST".toList
    URL := ⟨path⟩
    Header := (∅ : Header).insert "Authorization".toList [authorization]
    Body := [] }


/-! ## Observations and sample data -/

/-- Status code of the response written by `proxyHandler`; `none` when the
handler panics. -/
def proxyStatus (env : Env) (db : DB) (w : ResponseWriter) (r : Request) : Option Nat :=
  (proxyHandler env db w r).1.bind (·.StatusCode)

/-- A registry with one caller, one provider and an empty access log. -/
def db0 : DB :=
  { proxy_user := [⟨"u@x".toList, "U".toList, "k".toList⟩]
    proxy_provider := [⟨"p".toList, "http://up".toList, "K".toList⟩]
    proxy_access_log := [] }

/-- The environment `okEnv` with a failing query on `proxy_user`. -/
def userErrEnv : Env := { okEnv with userQueryErr := true }

/-- The environment `okEnv` with a failing insert into `proxy_access_log`. -/
def logErrEnv : Env := { okEnv with logExecErr := true }

/-- The environment `okEnv` with an unreachable upstream. -/
def downEnv : Env := { okEnv with clientDo := fun _ => none }

/-- The environment `okEnv` with an upstream whose status line is
`HTTP/1.1 099`. -/
def oddStatusEnv : Env := { okEnv with clientDo := fun _ => some ⟨99, ∅, "ok".toList⟩ }

/-- A registry in which one caller's credential is another caller's
credential behind the word `bearer`. -/
def dbBearerName : DB :=
  { proxy_user := [⟨"u@x".toList, "U".toList, "k".toList⟩,
      ⟨"v@x".toList, "V".toList, "bearer k".toList⟩]
    proxy_provider := [⟨"p".toList, "http://up".toList, "K".toList⟩]
    proxy_access_log := [] }

/-- An upstream answer with the status line `HTTP/1.1 099`. -/
def oddStatusResponse : Response := ⟨99, ∅, "ok".toList⟩

/-- A registry whose only caller has a credential that starts with a space. -/
def dbSpace : DB :=
  { proxy_user := [⟨" u@x".toList, "U".toList, " k".toList⟩]
    proxy_provider := [⟨"p".toList, "http://up".toList, "K".toList⟩]
    proxy_access_log := [] }

/-- A registry with a provider registered under the empty name. -/
def dbEmptyName : DB :=
  { proxy_user := [⟨"u@x".toList, "U".toList, "k".toList⟩]
    proxy_provider := [⟨[], "http://up".toList, "K".toList⟩]
    proxy_access_log := [] }

/-- A registry with a provider whose name starts with a slash. -/
def dbSlashName : DB :=
  { proxy_user := [⟨"u@x".toList, "U".toList, "k".toList⟩]
    proxy_provider := [⟨"/x".toList, "http://up".toList, "K".toList⟩]
    proxy_access_log := [] }

/-- A request with two custom headers besides the caller credential. -/
def sampleRequest : Request :=
  { Method := "POST".toList
    URL := ⟨"/p/v1/chat".toList⟩
    Header := (((∅ : Header).insert "Authorization".toList ["Bearer k".toList]).insert
      "Content-Type".toList ["text/plain".toList]).insert
      "X-Trace".toList ["a".toList, "b".toList]
    Body := "hi".toList }

/-- An upstream answer that sets two cookies. -/
def cookieResponse : Response :=
  { StatusCode := 200
    Header := (∅ : Header).insert "Set-Cookie".toList ["a=1".toList, "b=2".toList]
    Body := "ok".toList }


/-! ## Lemmas on the string functions -/

theorem TrimPrefix_append (pre s : Str) : TrimPrefix (pre ++ s) pre = s := by
  simp [TrimPrefix, HasPrefix]

theorem TrimPrefix_of_not_isPrefixOf {s pre : Str} (h : pre.isPrefixOf s = false) :
    TrimPrefix s pre = s := by
  simp [TrimPrefix, HasPrefix, h]

theorem TrimLeftSpace_append_left {w : Str} (hw : ∀ c ∈ w, IsSpace c = true) (s : Str) :
    TrimLeftSpace (w ++ s) = TrimLeftSpace s := by
  induction w with
  | nil => rfl
  | cons a w ih =>
    have ha : IsSpace a = true := hw a (List.mem_cons_self a w)
    have := ih (fun c hc => hw c (List.mem_cons_of_mem a hc))
    simpa [TrimLeftSpace, List.dropWhile, ha] using this

theorem TrimRightSpace_append_right {w : Str} (hw : ∀ c ∈ w, IsSpace c = true) (s : Str) :
    TrimRightSpace (s ++ w) = TrimRightSpace s := by
  unfold TrimRightSpace List.rdropWhile
  rw [List.reverse_append]
  have h := TrimLeftSpace_append_left (w := w.reverse)
    (fun c hc => hw c (List.mem_reverse.mp hc)) s.reverse
  unfold TrimLeftSpace at h
  rw [h]

theorem TrimSpace_append_right {w : Str} (hw : ∀ c ∈ w, IsSpace c = true) (s : Str) :
    TrimSpace (s ++ w) = TrimSpace s := by
  induction s with
  | nil =>
    have h := TrimLeftSpace_append_left hw []
    simp only [List.append_nil] at h
    simp [TrimSpace, h]
  | cons a s ih =>
    by_cases ha : IsSpace a = true
    · simpa [TrimSpace, TrimLeftSpace, List.dropWhile, ha] using ih
    · have h1 : TrimLeftSpace (a :: s ++ w) = (a :: s) ++ w := by
        simp [TrimLeftSpace, List.dropWhile, ha]
      have h2 : TrimLeftSpace (a :: s) = a :: s := by
        simp [TrimLeftSpace, List.dropWhile, ha]
      unfold TrimSpace
      rw [h1, h2]
      exact TrimRightSpace_append_right hw (a :: s)

theorem TrimSpace_surrounded {w1 w2 : Str} (h1 : ∀ c ∈ w1, IsSpace c = true)
    (h2 : ∀ c ∈ w2, IsSpace c = true) (s : Str) :
    TrimSpace (w1 ++ s ++ w2) = TrimSpace s := by
  rw [TrimSpace_append_right h2]
  unfold TrimSpace
  rw [TrimLeftSpace_append_left h1]

theorem indexFrom_slash_not_mem {s : Str} (h : '/' ∉ s) (i : Nat) :
    indexFrom ['/'] s i = -1 := by
  induction s generalizing i with
  | nil => simp [indexFrom]
  | cons a s ih =>
    have ha : a ≠ '/' := fun e => h (e ▸ List.mem_cons_self a s)
    have hs : '/' ∉ s := fun m => h (List.mem_cons_of_mem a m)
    have hne : ('/' == a) = false := by
      simpa using (fun e : '/' = a => ha e.symm)
    simp [indexFrom, List.isPrefixOf, hne, ih hs]

theorem indexFrom_slash_append {p : Str} (h : '/' ∉ p) (t : Str) (i : Nat) :
    indexFrom ['/'] (p ++ '/' :: t) i = ((i + p.length : Nat) : Int) := by
  induction p generalizing i with
  | nil => simp [indexFrom, List.isPrefixOf]
  | cons a p ih =>
    have ha : a ≠ '/' := fun e => h (e ▸ List.mem_cons_self a p)
    have hp : '/' ∉ p := fun m => h (List.mem_cons_of_mem a m)
    have hne : ('/' == a) = false := by
      simpa using (fun e : '/' = a => ha e.symm)
    simp [indexFrom, List.isPrefixOf, hne, ih hp]
    omega

theorem Index_slash_not_mem {s : Str} (h : '/' ∉ s) : Index s ['/'] = -1 :=
  indexFrom_slash_not_mem h 0

theorem Index_slash_append {p : Str} (h : '/' ∉ p) (t : Str) :
    Index (p ++ '/' :: t) ['/'] = (p.length : Int) := by
  simpa [Index] using indexFrom_slash_append h t 0

/-- The name looked up for a path `/p` or `/p/...` with `p` a non-empty,
slash-free segment is `p`. -/
theorem providerOf_segment {p rest : Str} (hp : p ≠ []) (hs : '/' ∉ p)
    (hrest : rest = [] ∨ ∃ t, rest = '/' :: t) :
    providerOf ('/' :: (p ++ rest)) = some p := by
  rcases hrest with rfl | ⟨t, rfl⟩
  · simp [providerOf, Index_slash_not_mem hs]
  · have hlen : 0 < p.length := List.length_pos.mpr hp
    simp [providerOf, Index_slash_append hs, hlen]

/-- A path that starts with `/` never makes `path[1:]` panic. -/
theorem providerOf_slash_isSome (rest : Str) : ∃ provider, providerOf ('/' :: rest) = some provider := by
  unfold providerOf
  dsimp only
  split_ifs
  · exact ⟨_, rfl⟩
  · exact ⟨_, rfl⟩

/-! ## Lemmas on header maps -/

theorem lookup_foldl_insert (g : Str → List Str → List Str) (k : Str) :
    ∀ (l : List (Sigma fun _ : Str => List Str)) (acc : Header), l.NodupKeys →
      (l.foldl (fun (h : Header) e => h.insert e.1 (g e.1 e.2)) acc).lookup k =
        match l.dlookup k with
        | some v => some (g k v)
        | none => acc.lookup k := by
  intro l
  induction l with
  | nil => intro acc _; simp
  | cons e l ih =>
    intro acc hnd
    have hnd2 : l.NodupKeys := (List.nodupKeys_cons.mp hnd).2
    have hnot : e.1 ∉ l.keys := (List.nodupKeys_cons.mp hnd).1
    rw [List.foldl_cons, ih _ hnd2]
    by_cases hk : k = e.1
    · subst hk
      have hnone : l.dlookup e.1 = none := List.dlookup_eq_none.mpr hnot
      obtain ⟨e1, e2⟩ := e
      simp [hnone, List.dlookup_cons_eq]
    · obtain ⟨e1, e2⟩ := e
      have hk2 : k ≠ e1 := hk
      rw [List.dlookup_cons_ne _ _ hk2]
      cases hl : l.dlookup k with
      | some v => simp
      | none => simp [AList.lookup_insert_ne hk2]

theorem Join_singleton (v sep : Str) : Join [v] sep = v := by
  simp [Join, List.intercalate]


theorem lookup_forwardLoop (h : Header) (k : Str) :
    (h.foldl (fun (acc : Header) key value => acc.insert key value) ∅).lookup k = h.lookup k := by
  have := lookup_foldl_insert (fun _ v => v) k h.entries ∅ h.nodupKeys
  simp only [AList.foldl]
  rw [this]
  show _ = List.dlookup k h.entries
  cases List.dlookup k h.entries <;> simp

theorem lookup_copyLoop (src dst : Header) (k : Str) :
    (src.foldl (fun (h : Header) key value => h.Set key (Join value ", ".toList)) dst).lookup k =
      match src.lookup k with
      | some v => some [Join v ", ".toList]
      | none => dst.lookup k := by
  have := lookup_foldl_insert (fun _ v => [Join v ", ".toList]) k src.entries dst src.nodupKeys
  simp only [AList.foldl, Header.Set]
  rw [this]
  rfl

/-! ## Requests rewritten for the upstream -/

/-- C4. The header set built by `forwardRequest`: `Authorization` holds the
single value `Bearer ` followed by the upstream credential, `Content-Type`
holds the single value `application/json`, every other name holds exactly the
inbound list of values (absent names stay absent), and the request handed to
the client carries this header set and the inbound method. -/
theorem forwardRequest_headers (env : Env) (r : Request) (apiURL K path : Str) :
    (forwardHeader r K).lookup "Authorization".toList = some ["Bearer ".toList ++ K] ∧
    (forwardHeader r K).lookup "Content-Type".toList = some ["application/json".toList] ∧
    (∀ key : Str, key ≠ "Authorization".toList → key ≠ "Content-Type".toList →
      (forwardHeader r K).lookup key = r.Header.lookup key) ∧
    (∀ req, newUpstreamRequest env r apiURL K path = some req →
      req.Header = forwardHeader r K ∧ req.Method = r.Method) := by
  refine ⟨?_, ?_, ?_, ?_⟩
  · have hne : "Authorization".toList ≠ "Content-Type".toList := by decide
    simp only [forwardHeader, Header.Set]
    rw [AList.lookup_insert_ne hne, AList.lookup_insert]
  · simp only [forwardHeader, Header.Set]
    rw [AList.lookup_insert]
  · intro key h1 h2
    simp only [forwardHeader, Header.Set]
    rw [AList.lookup_insert_ne h2, AList.lookup_insert_ne h1, lookup_forwardLoop]
  · intro req hreq
    unfold newUpstreamRequest at hreq
    cases hn : env.newRequest r.Method (apiURL ++ path) with
    | none => simp [hn] at hreq
    | some url =>
      simp only [hn, Option.some.injEq] at hreq
      subst hreq
      exact ⟨rfl, rfl⟩

theorem forwardRequest_headers_witness :
    (forwardHeader sampleRequest "K".toList).lookup "X-Trace".toList =
        some ["a".toList, "b".toList] ∧
      ∃ req, newUpstreamRequest okEnv sampleRequest "http://up".toList "K".toList
          "/v1/chat".toList = some req ∧
        req.Header = forwardHeader sampleRequest "K".toList ∧ req.Method = "POST".toList :=
  ⟨((forwardRequest_headers okEnv sampleRequest "http://up".toList "K".toList
      "/v1/chat".toList).2.2.1 "X-Trace".toList (by decide) (by decide)).trans (by decide),
   _, rfl,
   (forwardRequest_headers okEnv sampleRequest "http://up".toList "K".toList
      "/v1/chat".toList).2.2.2 _ rfl⟩


/-! ## Responses written to the caller -/

theorem WriteHeader_of_valid (w : ResponseWriter) {code : Nat}
    (h : 100 ≤ code ∧ code ≤ 999) :
    w.WriteHeader code = some { w with StatusCode := some code } := by
  have : ¬ (code < 100 ∨ code > 999) := by omega
  simp only [ResponseWriter.WriteHeader, this, ↓reduceIte]

theorem WriteHeader_of_invalid (w : ResponseWriter) {code : Nat}
    (h : code < 100 ∨ code > 999) : w.WriteHeader code = none := by
  simp only [ResponseWriter.WriteHeader, h, ↓reduceIte]

/-- With a code that `WriteHeader` accepts `http.Error` writes the two
plain-text headers, the code, and the message followed by a newline. -/
theorem httpError_of_valid (w : ResponseWriter) (error : Str) {code : Nat}
    (h : 100 ≤ code ∧ code ≤ 999) :
    httpError w error code =
      some
        { Header := (w.Header.Set "Content-Type".toList "text/plain; charset=utf-8".toList).Set
            "X-Content-Type-Options".toList "nosniff".toList
          StatusCode := some code
          Body := w.Body ++ (error ++ ['\n']) } := by
  simp only [httpError, WriteHeader_of_valid _ h, ResponseWriter.Write]

theorem httpError_status (w : ResponseWriter) (error : Str) {code : Nat}
    (h : 100 ≤ code ∧ code ≤ 999) :
    (httpError w error code).bind (·.StatusCode) = some code := by
  rw [httpError_of_valid w error h]
  rfl

theorem copyResponse_of_valid (w : ResponseWriter) (resp : Response)
    (h : 100 ≤ resp.StatusCode ∧ resp.StatusCode ≤ 999) :
    copyResponse w resp =
      some
        { Header := resp.Header.foldl (fun h key value => h.Set key (Join value ", ".toList))
            w.Header
          StatusCode := some resp.StatusCode
          Body := w.Body ++ resp.Body } := by
  simp only [copyResponse, WriteHeader_of_valid _ h, ResponseWriter.Write]

theorem copyResponse_of_invalid (w : ResponseWriter) (resp : Response)
    (h : resp.StatusCode < 100 ∨ resp.StatusCode > 999) : copyResponse w resp = none := by
  simp only [copyResponse, WriteHeader_of_invalid _ h]

theorem copyResponse_status (w : ResponseWriter) (resp : Response)
    (h : 100 ≤ resp.StatusCode ∧ resp.StatusCode ≤ 999) :
    (copyResponse w resp).bind (·.StatusCode) = some resp.StatusCode := by
  rw [copyResponse_of_valid w resp h]
  rfl

/-- Whatever `copyResponse` writes carries the upstream status code. -/
theorem copyResponse_status_of_some {w : ResponseWriter} {resp : Response} {s : Nat}
    (h : (copyResponse w resp).bind (·.StatusCode) = some s) :
    s = resp.StatusCode ∧ 100 ≤ resp.StatusCode ∧ resp.StatusCode ≤ 999 := by
  by_cases hv : 100 ≤ resp.StatusCode ∧ resp.StatusCode ≤ 999
  · rw [copyResponse_status w resp hv] at h
    exact ⟨(Option.some.inj h).symm, hv⟩
  · have : resp.StatusCode < 100 ∨ resp.StatusCode > 999 := by omega
    rw [copyResponse_of_invalid w resp this] at h
    cases h

/-- C10, as stated, fails: two upstream values of one header reach the caller
as a single value, the two joined by a comma and a space; and for an upstream
status line `HTTP/1.1 099` no status is written at all, `WriteHeader`
panics. -/
theorem copyResponse_joins_values :
    (cookieResponse.Header.lookup "Set-Cookie".toList = some ["a=1".toList, "b=2".toList] ∧
      (copyResponse freshWriter cookieResponse).map
          (fun out => out.Header.lookup "Set-Cookie".toList) =
        some (some ["a=1, b=2".toList])) ∧
    (oddStatusResponse.StatusCode = 99 ∧
      (copyResponse freshWriter oddStatusResponse).isSome = false) := by
  decide

/-- C10, amended. For an upstream status code from 100 to 999
`copyResponse` writes a response in which every upstream header name has
exactly one value, the upstream values joined in order by a comma and a space,
so a header with a single upstream value is copied verbatim; a name absent
upstream keeps what the writer held (nothing, for a fresh writer); the status
written is the upstream status code and the upstream body is appended to the
body. -/
theorem copyResponse_spec (w : ResponseWriter) (resp : Response)
    (hcode : 100 ≤ resp.StatusCode ∧ resp.StatusCode ≤ 999) :
    ∃ out, copyResponse w resp = some out ∧
      (∀ key values, resp.Header.lookup key = some values →
        out.Header.lookup key = some [Join values ", ".toList]) ∧
      (∀ key value, resp.Header.lookup key = some [value] →
        out.Header.lookup key = some [value]) ∧
      (∀ key, resp.Header.lookup key = none → out.Header.lookup key = w.Header.lookup key) ∧
      out.StatusCode = some resp.StatusCode ∧
      out.Body = w.Body ++ resp.Body := by
  refine ⟨_, copyResponse_of_valid w resp hcode, ?_, ?_, ?_, rfl, rfl⟩
  · intro key values h
    show (resp.Header.foldl _ w.Header).lookup key = _
    rw [lookup_copyLoop, h]
  · intro key value h
    show (resp.Header.foldl _ w.Header).lookup key = _
    rw [lookup_copyLoop, h]
    show some [Join [value] ", ".toList] = some [value]
    rw [Join_singleton]
  · intro key h
    show (resp.Header.foldl _ w.Header).lookup key = _
    rw [lookup_copyLoop, h]

theorem copyResponse_spec_witness :
    ∃ out, copyResponse freshWriter cookieResponse = some out ∧
      out.Header.lookup "Set-Cookie".toList =
        some [Join ["a=1".toList, "b=2".toList] ", ".toList] ∧
      out.Header.lookup "Date".toList = none ∧
      out.StatusCode = some 200 :=
  (copyResponse_spec freshWriter cookieResponse (by decide)).imp fun _ h =>
    ⟨h.1, h.2.1 "Set-Cookie".toList _ (by decide),
      (h.2.2.2.1 "Date".toList (by decide)).trans (by decide), h.2.2.2.2.1⟩

/-! ## The paths through `proxyHandler` -/

theorem validateUser_eq_true {env : Env} {db : DB} {apiKey userID : Str}
    (h : validateUser env db apiKey = (userID, true)) :
    env.userQueryErr = false ∧
      ∃ u, db.proxy_user.find? (fun u => u.api_key == apiKey) = some u ∧ u.user_id = userID := by
  unfold validateUser queryUser at h
  cases he : env.userQueryErr with
  | true => simp [he] at h
  | false =>
    refine ⟨rfl, ?_⟩
    cases hf : db.proxy_user.find? (fun u => u.api_key == apiKey) with
    | none => simp [he, hf] at h
    | some u =>
      simp [he, hf] at h
      exact ⟨u, rfl, h⟩

theorem validateUser_of_find {env : Env} {db : DB} {apiKey : Str} {u : ProxyUser}
    (he : env.userQueryErr = false)
    (hf : db.proxy_user.find? (fun u => u.api_key == apiKey) = some u) :
    validateUser env db apiKey = (u.user_id, true) := by
  simp [validateUser, queryUser, he, hf]

theorem validateUser_of_err {env : Env} (db : DB) (apiKey : Str)
    (he : env.userQueryErr = true) : validateUser env db apiKey = ([], false) := by
  simp [validateUser, queryUser, he]

theorem validateUser_of_unknown (env : Env) {db : DB} {apiKey : Str}
    (h : ∀ u ∈ db.proxy_user, u.api_key ≠ apiKey) : validateUser env db apiKey = ([], false) := by
  have hf : db.proxy_user.find? (fun u => u.api_key == apiKey) = none := by
    rw [List.find?_eq_none]
    intro u hu
    simpa using h u hu
  cases he : env.userQueryErr <;> simp [validateUser, queryUser, he, hf]

theorem validateUser_of_mem {env : Env} {db : DB} {apiKey : Str} {u : ProxyUser}
    (he : env.userQueryErr = false) (hu : u ∈ db.proxy_user) (hk : u.api_key = apiKey) :
    ∃ v ∈ db.proxy_user, v.api_key = apiKey ∧ validateUser env db apiKey = (v.user_id, true) := by
  cases hf : db.proxy_user.find? (fun u => u.api_key == apiKey) with
  | none =>
    rw [List.find?_eq_none] at hf
    exact absurd (by simpa using hk) (hf u hu)
  | some v =>
    have h1 := List.find?_some hf
    exact ⟨v, List.mem_of_find?_eq_some hf, by simpa using h1, validateUser_of_find he hf⟩

theorem queryProvider_of_err {env : Env} (db : DB) (provider : Str)
    (he : env.providerQueryErr = true) : queryProvider env db provider = .err := by
  simp [queryProvider, he]

theorem queryProvider_of_unknown {env : Env} {db : DB} {provider : Str}
    (he : env.providerQueryErr = false)
    (h : ∀ p ∈ db.proxy_provider, p.provider_name ≠ provider) :
    queryProvider env db provider = .errNoRows := by
  have hf : db.proxy_provider.find? (fun p => p.provider_name == provider) = none := by
    rw [List.find?_eq_none]
    intro p hp
    simpa using h p hp
  simp [queryProvider, he, hf]

theorem queryProvider_of_find {env : Env} {db : DB} {provider : Str} {p : ProxyProvider}
    (he : env.providerQueryErr = false)
    (hf : db.proxy_provider.find? (fun p => p.provider_name == provider) = some p) :
    queryProvider env db provider = .row (p.api_url, p.api_key) := by
  simp [queryProvider, he, hf]

theorem queryProvider_eq_row {env : Env} {db : DB} {provider apiURL apiKey : Str}
    (h : queryProvider env db provider = .row (apiURL, apiKey)) :
    env.providerQueryErr = false ∧
      ∃ p, db.proxy_provider.find? (fun p => p.provider_name == provider) = some p ∧
        p.api_url = apiURL ∧ p.api_key = apiKey := by
  unfold queryProvider at h
  cases he : env.providerQueryErr with
  | true => simp [he] at h
  | false =>
    refine ⟨rfl, ?_⟩
    cases hf : db.proxy_provider.find? (fun p => p.provider_name == provider) with
    | none => simp [he, hf] at h
    | some p =>
      simp [he, hf] at h
      exact ⟨p, rfl, h.1, h.2⟩

/-- Under the primary key on `provider_name`, the row found for a registered
name is the registered row. -/
theorem find_provider_of_mem {db : DB} (hpk : db.PrimaryKeys) {p : ProxyProvider}
    (hp : p ∈ db.proxy_provider) :
    db.proxy_provider.find? (fun q => q.provider_name == p.provider_name) = some p := by
  have hnd := hpk.2
  generalize db.proxy_provider = l at hp hnd
  induction l with
  | nil => cases hp
  | cons a l ih =>
    rw [List.map_cons, List.nodup_cons] at hnd
    by_cases ha : a.provider_name = p.provider_name
    · rcases List.mem_cons.mp hp with rfl | hmem
      · simp [List.find?]
      · exact absurd (ha ▸ List.mem_map_of_mem (·.provider_name) hmem) hnd.1
    · rcases List.mem_cons.mp hp with rfl | hmem
      · exact absurd rfl ha
      · have hb : (a.provider_name == p.provider_name) = false := by simpa using ha
        simp only [List.find?, hb]
        exact ih hmem hnd.2

theorem proxyHandler_of_empty (env : Env) (db : DB) (w : ResponseWriter) {r : Request}
    (h : r.Header.Get "Authorization".toList = []) :
    proxyHandler env db w r =
      (httpError w "Unauthorized".toList StatusUnauthorized, db) := by
  simp only [proxyHandler, h, ↓reduceIte]

theorem proxyHandler_of_invalid (env : Env) (db : DB) (w : ResponseWriter) {r : Request}
    (h : validateUser env db (bearerKey (r.Header.Get "Authorization".toList)) = ([], false)) :
    proxyHandler env db w r =
      (httpError w "Unauthorized".toList StatusUnauthorized, db) := by
  by_cases hne : r.Header.Get "Authorization".toList = []
  · exact proxyHandler_of_empty env db w hne
  · simp only [proxyHandler, hne, h, ↓reduceIte]

theorem proxyHandler_of_panic {env : Env} {db : DB} (w : ResponseWriter) {r : Request}
    {userID : Str} (hne : r.Header.Get "Authorization".toList ≠ [])
    (hv : validateUser env db (bearerKey (r.Header.Get "Authorization".toList)) = (userID, true))
    (hp : providerOf r.URL.Path = none) :
    proxyHandler env db w r = (none, db) := by
  simp only [proxyHandler, hne, hv, hp, ↓reduceIte]

theorem proxyHandler_of_notFound {env : Env} {db : DB} (w : ResponseWriter) {r : Request}
    {userID provider : Str} (hne : r.Header.Get "Authorization".toList ≠ [])
    (hv : validateUser env db (bearerKey (r.Header.Get "Authorization".toList)) = (userID, true))
    (hp : providerOf r.URL.Path = some provider)
    (hq : queryProvider env db provider = .errNoRows) :
    proxyHandler env db w r =
      (httpError w "Provider not found".toList StatusNotFound, db) := by
  simp only [proxyHandler, hne, hv, hp, hq, ↓reduceIte]

theorem proxyHandler_of_providerErr {env : Env} {db : DB} (w : ResponseWriter) {r : Request}
    {userID provider : Str} (hne : r.Header.Get "Authorization".toList ≠ [])
    (hv : validateUser env db (bearerKey (r.Header.Get "Authorization".toList)) = (userID, true))
    (hp : providerOf r.URL.Path = some provider)
    (hq : queryProvider env db provider = .err) :
    proxyHandler env db w r =
      (httpError w "Internal Server Error".toList StatusInternalServerError, db) := by
  simp only [proxyHandler, hne, hv, hp, hq, ↓reduceIte]

theorem proxyHandler_of_forwardErr {env : Env} {db : DB} (w : ResponseWriter) {r : Request}
    {userID provider apiURL modelAPIKey : Str}
    (hne : r.Header.Get "Authorization".toList ≠ [])
    (hv : validateUser env db (bearerKey (r.Header.Get "Authorization".toList)) = (userID, true))
    (hp : providerOf r.URL.Path = some provider)
    (hq : queryProvider env db provider = .row (apiURL, modelAPIKey))
    (hf : forwardRequest env r apiURL modelAPIKey (TrimPrefix r.URL.Path ('/' :: provider)) = none) :
    proxyHandler env db w r =
      (httpError w "Internal Server Error".toList StatusInternalServerError,
        logAccess env db userID r.URL.Path) := by
  simp only [proxyHandler, hne, hv, hp, hq, hf, ↓reduceIte]

theorem proxyHandler_of_relay {env : Env} {db : DB} (w : ResponseWriter) {r : Request}
    {userID provider apiURL modelAPIKey : Str} {resp : Response}
    (hne : r.Header.Get "Authorization".toList ≠ [])
    (hv : validateUser env db (bearerKey (r.Header.Get "Authorization".toList)) = (userID, true))
    (hp : providerOf r.URL.Path = some provider)
    (hq : queryProvider env db provider = .row (apiURL, modelAPIKey))
    (hf : forwardRequest env r apiURL modelAPIKey (TrimPrefix r.URL.Path ('/' :: provider)) =
      some resp) :
    proxyHandler env db w r = (copyResponse w resp, logAccess env db userID r.URL.Path) := by
  simp only [proxyHandler, hne, hv, hp, hq, hf, ↓reduceIte]

/-- The result of `validateUser` is a user id with `true`, or the empty string
with `false`. -/
theorem validateUser_cases (env : Env) (db : DB) (apiKey : Str) :
    validateUser env db apiKey = ([], false) ∨ ∃ userID, validateUser env db apiKey = (userID, true) := by
  unfold validateUser
  cases queryUser env db apiKey with
  | row a => exact Or.inr ⟨a, rfl⟩
  | errNoRows => exact Or.inl rfl
  | err => exact Or.inl rfl

/-- For a path that begins with `/` the response is one of the three fixed
error answers or the relay of an answer that `client.Do` returned. -/
theorem proxyHandler_response (env : Env) (db : DB) (w : ResponseWriter) (r : Request)
    (rest : Str) (hpath : r.URL.Path = '/' :: rest) :
    (proxyHandler env db w r).1 = httpError w "Unauthorized".toList StatusUnauthorized ∨
    (proxyHandler env db w r).1 = httpError w "Provider not found".toList StatusNotFound ∨
    (proxyHandler env db w r).1 =
      httpError w "Internal Server Error".toList StatusInternalServerError ∨
    ∃ req resp, env.clientDo req = some resp ∧
      (proxyHandler env db w r).1 = copyResponse w resp := by
  obtain ⟨provider, hprov⟩ := providerOf_slash_isSome rest
  rw [← hpath] at hprov
  by_cases hne : r.Header.Get "Authorization".toList = []
  · exact Or.inl (by rw [proxyHandler_of_empty env db w hne])
  rcases validateUser_cases env db (bearerKey (r.Header.Get "Authorization".toList)) with
    hv | ⟨userID, hv⟩
  · exact Or.inl (by rw [proxyHandler_of_invalid env db w hv])
  cases hq : queryProvider env db provider with
  | errNoRows => exact Or.inr (Or.inl (by rw [proxyHandler_of_notFound w hne hv hprov hq]))
  | err => exact Or.inr (Or.inr (Or.inl (by rw [proxyHandler_of_providerErr w hne hv hprov hq])))
  | row a =>
    obtain ⟨apiURL, apiKey⟩ := a
    cases hf : forwardRequest env r apiURL apiKey (TrimPrefix r.URL.Path ('/' :: provider)) with
    | none =>
      exact Or.inr (Or.inr (Or.inl (by rw [proxyHandler_of_forwardErr w hne hv hprov hq hf])))
    | some resp =>
      refine Or.inr (Or.inr (Or.inr ?_))
      have hf2 := hf
      unfold forwardRequest at hf2
      cases hn : newUpstreamRequest env r apiURL apiKey
          (TrimPrefix r.URL.Path ('/' :: provider)) with
      | none => simp [hn] at hf2
      | some req =>
        simp only [hn] at hf2
        exact ⟨req, resp, hf2, by rw [proxyHandler_of_relay w hne hv hprov hq hf]⟩

/-- A response is missing only when the status code to be written lies outside
100 to 999. -/
theorem proxyHandler_response_none (env : Env) (db : DB) (w : ResponseWriter) (r : Request)
    (rest : Str) (hpath : r.URL.Path = '/' :: rest)
    (hnone : (proxyHandler env db w r).1 = none) :
    ∃ req resp, env.clientDo req = some resp ∧
      (resp.StatusCode < 100 ∨ resp.StatusCode > 999) := by
  have h401 : 100 ≤ StatusUnauthorized ∧ StatusUnauthorized ≤ 999 := by decide
  have h404 : 100 ≤ StatusNotFound ∧ StatusNotFound ≤ 999 := by decide
  have h500 : 100 ≤ StatusInternalServerError ∧ StatusInternalServerError ≤ 999 := by decide
  rcases proxyHandler_response env db w r rest hpath with h | h | h | ⟨req, resp, hdo, h⟩
  · rw [h, httpError_of_valid w _ h401] at hnone; cases hnone
  · rw [h, httpError_of_valid w _ h404] at hnone; cases hnone
  · rw [h, httpError_of_valid w _ h500] at hnone; cases hnone
  · refine ⟨req, resp, hdo, ?_⟩
    by_contra hc
    have hv : 100 ≤ resp.StatusCode ∧ resp.StatusCode ≤ 999 := by omega
    rw [h, copyResponse_of_valid w resp hv] at hnone
    cases hnone

/-! ## Authentication -/

/-- C7. A request whose `Authorization` value is absent or empty, or whose
stripped token is the credential of no registered caller, gets the same
response whatever its path, the provider registry, the access log and the
environment are: the fixed `401 Unauthorized` response of `http.Error`, with
the database left as it was. -/
theorem auth_failure_uniform (env1 env2 : Env) (db1 db2 : DB) (w : ResponseWriter)
    (r1 r2 : Request)
    (hsame : r1.Header.Get "Authorization".toList = r2.Header.Get "Authorization".toList)
    (husers : db1.proxy_user = db2.proxy_user)
    (hrej : r1.Header.Get "Authorization".toList = [] ∨
      ∀ u ∈ db1.proxy_user, u.api_key ≠ bearerKey (r1.Header.Get "Authorization".toList)) :
    (proxyHandler env1 db1 w r1).1 = (proxyHandler env2 db2 w r2).1 ∧
    (proxyHandler env1 db1 w r1).1 = httpError w "Unauthorized".toList StatusUnauthorized ∧
    (∃ out, httpError w "Unauthorized".toList StatusUnauthorized = some out ∧
      out.StatusCode = some 401 ∧ out.Body = w.Body ++ "Unauthorized\n".toList) ∧
    proxyStatus env1 db1 w r1 = some 401 ∧
    (proxyHandler env1 db1 w r1).2 = db1 ∧ (proxyHandler env2 db2 w r2).2 = db2 := by
  have h1 : proxyHandler env1 db1 w r1 =
      (httpError w "Unauthorized".toList StatusUnauthorized, db1) := by
    rcases hrej with h | h
    · exact proxyHandler_of_empty env1 db1 w h
    · exact proxyHandler_of_invalid env1 db1 w (validateUser_of_unknown env1 h)
  have h2 : proxyHandler env2 db2 w r2 =
      (httpError w "Unauthorized".toList StatusUnauthorized, db2) := by
    rcases hrej with h | h
    · exact proxyHandler_of_empty env2 db2 w (hsame ▸ h)
    · refine proxyHandler_of_invalid env2 db2 w (validateUser_of_unknown env2 ?_)
      rw [← hsame, ← husers]
      exact h
  have hv : 100 ≤ StatusUnauthorized ∧ StatusUnauthorized ≤ 999 := by decide
  refine ⟨by rw [h1, h2], by rw [h1], ?_, ?_, by rw [h1], by rw [h2]⟩
  · refine ⟨_, httpError_of_valid w _ hv, rfl, ?_⟩
    simp
  · simp only [proxyStatus, h1]
    exact httpError_status w _ hv

theorem auth_failure_uniform_witness :
    (proxyHandler okEnv db0 freshWriter (mkRequest "/p/x".toList "Bearer zz".toList)).1 =
        (proxyHandler downEnv dbEmptyName freshWriter
          (mkRequest "/nowhere".toList "Bearer zz".toList)).1 ∧
      proxyStatus okEnv db0 freshWriter (mkRequest "/p/x".toList "Bearer zz".toList) = some 401 :=
  have h := auth_failure_uniform okEnv downEnv db0 dbEmptyName freshWriter
    (mkRequest "/p/x".toList "Bearer zz".toList) (mkRequest "/nowhere".toList "Bearer zz".toList)
    (by decide) (by decide) (Or.inr (by decide))
  ⟨h.1, h.2.2.2.1⟩

/-- C2, as stated, fails: a registered credential that starts with a space
is trimmed before the lookup, so `validateUser` is called with another
string and the caller is rejected. -/
theorem bearer_with_padded_credential_rejected :
    (∃ u ∈ dbSpace.proxy_user, u.api_key = " k".toList) ∧
    bearerKey ("Bearer ".toList ++ " k".toList) = "k".toList ∧
    bearerKey ("Bearer ".toList ++ " k".toList) ≠ " k".toList ∧
    validateUser okEnv dbSpace (bearerKey ("Bearer ".toList ++ " k".toList)) = ([], false) ∧
    proxyStatus okEnv dbSpace freshWriter
      (mkRequest "/p/x".toList ("Bearer ".toList ++ " k".toList)) = some 401 := by
  decide

/-- C2, amended. When the lookup on `proxy_user` does not fail, a registered
caller whose credential `c` has no white space at either end and belongs to no
other caller is authenticated by the header value `Bearer ` followed by `c`:
`validateUser` is called with exactly `c` and returns that caller's user id and
`true`. -/
theorem bearer_authenticates (env : Env) (db : DB) (r : Request) (u : ProxyUser)
    (he : env.userQueryErr = false) (hu : u ∈ db.proxy_user)
    (huniq : ∀ v ∈ db.proxy_user, v.api_key = u.api_key → v.user_id = u.user_id)
    (htrim : TrimSpace u.api_key = u.api_key)
    (hr : r.Header.Get "Authorization".toList = "Bearer ".toList ++ u.api_key) :
    bearerKey (r.Header.Get "Authorization".toList) = u.api_key ∧
    validateUser env db (bearerKey (r.Header.Get "Authorization".toList)) = (u.user_id, true) := by
  have hk : bearerKey (r.Header.Get "Authorization".toList) = u.api_key := by
    rw [hr, bearerKey, TrimPrefix_append, htrim]
  refine ⟨hk, ?_⟩
  rw [hk]
  obtain ⟨v, hv, hvk, hval⟩ := validateUser_of_mem he hu rfl
  rw [hval, huniq v hv hvk]

theorem bearer_authenticates_witness :
    validateUser okEnv db0
      (bearerKey ((mkRequest "/p/x".toList "Bearer k".toList).Header.Get "Authorization".toList)) =
        ("u@x".toList, true) :=
  (bearer_authenticates okEnv db0 (mkRequest "/p/x".toList "Bearer k".toList)
    ⟨"u@x".toList, "U".toList, "k".toList⟩ rfl (by decide) (by decide) (by decide)
    (by decide)).2


/-! ## Response status -/

/-- C1, as stated, fails: when the lookup on `proxy_user` errors, a request
whose token is a registered credential, whose first path segment is a
registered provider and whose upstream would answer `200` is answered `401`;
and when the upstream answers with the status line `HTTP/1.1 099`, the handler
panics in `WriteHeader` and writes no status at all. -/
theorem status_on_user_lookup_error :
    ((mkRequest "/p/x".toList "Bearer k".toList).Header.Get "Authorization".toList ≠ [] ∧
      (∃ u ∈ db0.proxy_user, u.api_key =
        bearerKey ((mkRequest "/p/x".toList "Bearer k".toList).Header.Get
          "Authorization".toList)) ∧
      (∃ p ∈ db0.proxy_provider, providerOf "/p/x".toList = some p.provider_name) ∧
      userErrEnv.providerQueryErr = false ∧
      (forwardRequest userErrEnv (mkRequest "/p/x".toList "Bearer k".toList) "http://up".toList
        "K".toList "/x".toList).map (·.StatusCode) = some 200 ∧
      proxyStatus userErrEnv db0 freshWriter (mkRequest "/p/x".toList "Bearer k".toList) =
        some 401) ∧
    (oddStatusEnv.userQueryErr = false ∧ oddStatusEnv.providerQueryErr = false ∧
      (forwardRequest oddStatusEnv (mkRequest "/p/x".toList "Bearer k".toList)
        "http://up".toList "K".toList "/x".toList).map (·.StatusCode) = some 99 ∧
      (proxyHandler oddStatusEnv db0 freshWriter
        (mkRequest "/p/x".toList "Bearer k".toList)).1.isSome = false ∧
      proxyStatus oddStatusEnv db0 freshWriter (mkRequest "/p/x".toList "Bearer k".toList) =
        none) := by
  decide

/-- C1, amended. For a path that begins with `/` the handler looks up some
provider name and answers, in this order: `401` when the `Authorization` value
is absent or empty, the lookup on `proxy_user` errors, or the stripped token is
the credential of no registered caller; otherwise `500` when the lookup on
`proxy_provider` errors; otherwise `404` when no provider is registered under
the looked-up name; otherwise `500` when the forward fails; otherwise the
status code of the upstream response, when that code lies between 100 and 999.
No other status is produced, and a status is always written unless the
upstream code lies outside that range. -/
theorem proxyHandler_status (env : Env) (db : DB) (w : ResponseWriter) (r : Request)
    (rest : Str) (hpath : r.URL.Path = '/' :: rest) :
    ∃ provider, providerOf r.URL.Path = some provider ∧
      ((r.Header.Get "Authorization".toList = [] ∨ env.userQueryErr = true ∨
          ∀ u ∈ db.proxy_user, u.api_key ≠ bearerKey (r.Header.Get "Authorization".toList)) →
        proxyStatus env db w r = some 401) ∧
      (r.Header.Get "Authorization".toList ≠ [] → env.userQueryErr = false →
        (∃ u ∈ db.proxy_user, u.api_key = bearerKey (r.Header.Get "Authorization".toList)) →
        (env.providerQueryErr = true → proxyStatus env db w r = some 500) ∧
        (env.providerQueryErr = false →
          (∀ p ∈ db.proxy_provider, p.provider_name ≠ provider) →
          proxyStatus env db w r = some 404) ∧
        (env.providerQueryErr = false →
          ∀ p, db.proxy_provider.find? (fun q => q.provider_name == provider) = some p →
            (forwardRequest env r p.api_url p.api_key
                (TrimPrefix r.URL.Path ('/' :: provider)) = none →
              proxyStatus env db w r = some 500) ∧
            (∀ resp, forwardRequest env r p.api_url p.api_key
                (TrimPrefix r.URL.Path ('/' :: provider)) = some resp →
              100 ≤ resp.StatusCode ∧ resp.StatusCode ≤ 999 →
              proxyStatus env db w r = some resp.StatusCode))) ∧
      (∀ s, proxyStatus env db w r = some s →
        s = 401 ∨ s = 404 ∨ s = 500 ∨
          ∃ req resp, env.clientDo req = some resp ∧ s = resp.StatusCode) ∧
      (proxyStatus env db w r = none →
        ∃ req resp, env.clientDo req = some resp ∧
          (resp.StatusCode < 100 ∨ resp.StatusCode > 999)) := by
  obtain ⟨provider, hprov⟩ := providerOf_slash_isSome rest
  rw [← hpath] at hprov
  have h401 : ∀ {res : Option ResponseWriter × DB} {d : DB},
      res = (httpError w "Unauthorized".toList StatusUnauthorized, d) →
      res.1.bind (·.StatusCode) = some 401 := by
    intro res d h; rw [h]; exact httpError_status w _ (show 100 ≤ StatusUnauthorized ∧ StatusUnauthorized ≤ 999 by decide)
  have h404 : ∀ {res : Option ResponseWriter × DB} {d : DB},
      res = (httpError w "Provider not found".toList StatusNotFound, d) →
      res.1.bind (·.StatusCode) = some 404 := by
    intro res d h; rw [h]; exact httpError_status w _ (show 100 ≤ StatusNotFound ∧ StatusNotFound ≤ 999 by decide)
  have h500 : ∀ {res : Option ResponseWriter × DB} {d : DB},
      res = (httpError w "Internal Server Error".toList StatusInternalServerError, d) →
      res.1.bind (·.StatusCode) = some 500 := by
    intro res d h; rw [h]; exact httpError_status w _ (show 100 ≤ StatusInternalServerError ∧ StatusInternalServerError ≤ 999 by decide)
  have hunauth : (r.Header.Get "Authorization".toList = [] ∨ env.userQueryErr = true ∨
      ∀ u ∈ db.proxy_user, u.api_key ≠ bearerKey (r.Header.Get "Authorization".toList)) →
      proxyStatus env db w r = some 401 := by
    rintro (h | h | h)
    · exact h401 (proxyHandler_of_empty env db w h)
    · exact h401 (proxyHandler_of_invalid env db w (validateUser_of_err db _ h))
    · exact h401 (proxyHandler_of_invalid env db w (validateUser_of_unknown env h))
  have hrelay : ∀ userID p resp, r.Header.Get "Authorization".toList ≠ [] →
      validateUser env db (bearerKey (r.Header.Get "Authorization".toList)) = (userID, true) →
      env.providerQueryErr = false →
      db.proxy_provider.find? (fun q => q.provider_name == provider) = some p →
      forwardRequest env r p.api_url p.api_key (TrimPrefix r.URL.Path ('/' :: provider)) =
        some resp →
      proxyStatus env db w r = (copyResponse w resp).bind (·.StatusCode) := by
    intro userID p resp hne hv hq hp hf
    simp only [proxyStatus,
      proxyHandler_of_relay w hne hv hprov (queryProvider_of_find hq hp) hf]
  have hauth : r.Header.Get "Authorization".toList ≠ [] → env.userQueryErr = false →
      (∃ u ∈ db.proxy_user, u.api_key = bearerKey (r.Header.Get "Authorization".toList)) →
      (env.providerQueryErr = true → proxyStatus env db w r = some 500) ∧
      (env.providerQueryErr = false →
        (∀ p ∈ db.proxy_provider, p.provider_name ≠ provider) →
        proxyStatus env db w r = some 404) ∧
      (env.providerQueryErr = false →
        ∀ p, db.proxy_provider.find? (fun q => q.provider_name == provider) = some p →
          (forwardRequest env r p.api_url p.api_key
              (TrimPrefix r.URL.Path ('/' :: provider)) = none →
            proxyStatus env db w r = some 500) ∧
          (∀ resp, forwardRequest env r p.api_url p.api_key
              (TrimPrefix r.URL.Path ('/' :: provider)) = some resp →
            100 ≤ resp.StatusCode ∧ resp.StatusCode ≤ 999 →
            proxyStatus env db w r = some resp.StatusCode)) := by
    rintro hne he ⟨u, hu, hk⟩
    obtain ⟨v, _, _, hv⟩ := validateUser_of_mem he hu hk
    refine ⟨fun hq => ?_, fun hq hno => ?_, fun hq p hp => ⟨fun hf => ?_, fun resp hf hc => ?_⟩⟩
    · exact h500 (proxyHandler_of_providerErr w hne hv hprov (queryProvider_of_err db _ hq))
    · exact h404 (proxyHandler_of_notFound w hne hv hprov (queryProvider_of_unknown hq hno))
    · exact h500 (proxyHandler_of_forwardErr w hne hv hprov (queryProvider_of_find hq hp) hf)
    · rw [hrelay _ p resp hne hv hq hp hf]
      exact copyResponse_status w resp hc
  -- every run ends in one of the fixed answers or in the relay of an upstream answer
  have hall : proxyStatus env db w r = some 401 ∨ proxyStatus env db w r = some 404 ∨
      proxyStatus env db w r = some 500 ∨
      ∃ req resp, env.clientDo req = some resp ∧
        proxyStatus env db w r = (copyResponse w resp).bind (·.StatusCode) := by
    by_cases hne : r.Header.Get "Authorization".toList = []
    · exact Or.inl (hunauth (Or.inl hne))
    cases he : env.userQueryErr with
    | true => exact Or.inl (hunauth (Or.inr (Or.inl he)))
    | false =>
      by_cases hreg : ∃ u ∈ db.proxy_user,
          u.api_key = bearerKey (r.Header.Get "Authorization".toList)
      · obtain ⟨h1, h2, h3⟩ := hauth hne he hreg
        obtain ⟨u, hu, hk⟩ := hreg
        obtain ⟨v, _, _, hv⟩ := validateUser_of_mem he hu hk
        cases hq : env.providerQueryErr with
        | true => exact Or.inr (Or.inr (Or.inl (h1 hq)))
        | false =>
          cases hf : db.proxy_provider.find? (fun q => q.provider_name == provider) with
          | none =>
            rw [List.find?_eq_none] at hf
            exact Or.inr (Or.inl (h2 hq (fun p hp => by simpa using hf p hp)))
          | some p =>
            obtain ⟨h4, _⟩ := h3 hq p hf
            cases hfw : forwardRequest env r p.api_url p.api_key
                (TrimPrefix r.URL.Path ('/' :: provider)) with
            | none => exact Or.inr (Or.inr (Or.inl (h4 hfw)))
            | some resp =>
              refine Or.inr (Or.inr (Or.inr ?_))
              have hfw2 := hfw
              unfold forwardRequest at hfw2
              cases hn : newUpstreamRequest env r p.api_url p.api_key
                  (TrimPrefix r.URL.Path ('/' :: provider)) with
              | none => simp [hn] at hfw2
              | some req =>
                simp only [hn] at hfw2
                exact ⟨req, resp, hfw2, hrelay _ p resp hne hv hq hf hfw⟩
      · refine Or.inl (hunauth (Or.inr (Or.inr ?_)))
        intro u hu hk
        exact hreg ⟨u, hu, hk⟩
  refine ⟨provider, hprov, hunauth, hauth, ?_, ?_⟩
  · intro s hs
    rcases hall with h | h | h | ⟨req, resp, hdo, h⟩
    · rw [h] at hs; exact Or.inl (Option.some.inj hs).symm
    · rw [h] at hs; exact Or.inr (Or.inl (Option.some.inj hs).symm)
    · rw [h] at hs; exact Or.inr (Or.inr (Or.inl (Option.some.inj hs).symm))
    · rw [h] at hs
      exact Or.inr (Or.inr (Or.inr ⟨req, resp, hdo, (copyResponse_status_of_some hs).1⟩))
  · intro hnone
    rcases hall with h | h | h | ⟨req, resp, hdo, h⟩
    · rw [h] at hnone; cases hnone
    · rw [h] at hnone; cases hnone
    · rw [h] at hnone; cases hnone
    · refine ⟨req, resp, hdo, ?_⟩
      by_contra hc
      have hv : 100 ≤ resp.StatusCode ∧ resp.StatusCode ≤ 999 := by omega
      rw [h, copyResponse_status w resp hv] at hnone
      cases hnone

theorem proxyHandler_status_witness :
    ∃ provider, providerOf "/p/x".toList = some provider ∧
      proxyStatus userErrEnv db0 freshWriter (mkRequest "/p/x".toList "Bearer k".toList) =
        some 401 :=
  have h := proxyHandler_status userErrEnv db0 freshWriter
    (mkRequest "/p/x".toList "Bearer k".toList) "p/x".toList rfl
  h.imp fun _ hp => ⟨hp.1, hp.2.1 (Or.inr (Or.inl rfl))⟩

/-! ## Provider resolution -/

/-- C3, as stated, fails in its last part: for the registered provider `p`
and the remainder `/a b` the handler resolves `(U, K)` and the remainder as
claimed, but the URL of the upstream request is the one `http.NewRequest`
parsed, `http://up/a%20b`, not the concatenation `http://up/a b`. -/
theorem upstream_url_reencoded :
    (⟨"p".toList, "http://up".toList, "K".toList⟩ : ProxyProvider) ∈ db0.proxy_provider ∧
    providerOf "/p/a b".toList = some "p".toList ∧
    queryProvider okEnv db0 "p".toList = .row ("http://up".toList, "K".toList) ∧
    TrimPrefix "/p/a b".toList ('/' :: "p".toList) = "/a b".toList ∧
    (newUpstreamRequest okEnv (mkRequest "/p/a b".toList "Bearer k".toList) "http://up".toList
      "K".toList "/a b".toList).map (·.URL) = some "http://up/a%20b".toList ∧
    "http://up/a%20b".toList ≠ "http://up".toList ++ "/a b".toList := by
  decide

/-- C3, amended. For a registered provider with a non-empty, slash-free name
`p`, base URL `U` and credential `K`, and a remainder that is empty or starts
with `/`, an authenticated request for `/p` followed by the remainder looks
up `p`, the row of the registry found under `p` is the one holding `(U, K)`,
the remainder passed on is exactly the given one, and the string handed to
`http.NewRequest` is `U` followed by the remainder, byte for byte; the URL of
the upstream request is what `http.NewRequest` makes of that string.  When the
query answers, the handler logs the full path and relays the outcome of that
forward. -/
theorem resolve_registered (env : Env) (db : DB) (w : ResponseWriter) (r : Request)
    (p : ProxyProvider) (rest userID : Str)
    (hpk : db.PrimaryKeys) (hp : p ∈ db.proxy_provider)
    (hne : p.provider_name ≠ []) (hs : '/' ∉ p.provider_name)
    (hrest : rest = [] ∨ ∃ t, rest = '/' :: t)
    (hpath : r.URL.Path = '/' :: (p.provider_name ++ rest))
    (hauth : r.Header.Get "Authorization".toList ≠ [])
    (hv : validateUser env db (bearerKey (r.Header.Get "Authorization".toList)) =
      (userID, true)) :
    providerOf r.URL.Path = some p.provider_name ∧
    db.proxy_provider.find? (fun q => q.provider_name == p.provider_name) = some p ∧
    TrimPrefix r.URL.Path ('/' :: p.provider_name) = rest ∧
    (newUpstreamRequest env r p.api_url p.api_key rest).map (·.URL) =
      env.newRequest r.Method (p.api_url ++ rest) ∧
    (env.providerQueryErr = false →
      queryProvider env db p.provider_name = .row (p.api_url, p.api_key) ∧
      proxyHandler env db w r =
        (match forwardRequest env r p.api_url p.api_key rest with
          | none => httpError w "Internal Server Error".toList StatusInternalServerError
          | some resp => copyResponse w resp,
          logAccess env db userID r.URL.Path)) := by
  have h1 : providerOf r.URL.Path = some p.provider_name := by
    rw [hpath]
    exact providerOf_segment hne hs hrest
  have h3 : TrimPrefix r.URL.Path ('/' :: p.provider_name) = rest := by
    rw [hpath]
    exact TrimPrefix_append ('/' :: p.provider_name) rest
  refine ⟨h1, find_provider_of_mem hpk hp, h3, ?_, ?_⟩
  · unfold newUpstreamRequest
    cases env.newRequest r.Method (p.api_url ++ rest) <;> rfl
  · intro hq
    have h2 : queryProvider env db p.provider_name = .row (p.api_url, p.api_key) :=
      queryProvider_of_find hq (find_provider_of_mem hpk hp)
    refine ⟨h2, ?_⟩
    cases hf : forwardRequest env r p.api_url p.api_key rest with
    | none => exact proxyHandler_of_forwardErr w hauth hv h1 h2 (by rw [h3]; exact hf)
    | some resp => exact proxyHandler_of_relay w hauth hv h1 h2 (by rw [h3]; exact hf)

theorem resolve_registered_witness :
    providerOf "/p/x/y".toList = some "p".toList ∧
      TrimPrefix "/p/x/y".toList "/p".toList = "/x/y".toList ∧
      queryProvider okEnv db0 "p".toList = .row ("http://up".toList, "K".toList) ∧
      (newUpstreamRequest okEnv (mkRequest "/p/x/y".toList "Bearer k".toList)
          "http://up".toList "K".toList "/x/y".toList).map (·.URL) =
        okEnv.newRequest "POST".toList "http://up/x/y".toList :=
  have h := resolve_registered okEnv db0 freshWriter
    (mkRequest "/p/x/y".toList "Bearer k".toList) ⟨"p".toList, "http://up".toList, "K".toList⟩
    "/x/y".toList "u@x".toList (by unfold DB.PrimaryKeys; decide) (by decide) (by decide)
    (by decide) (Or.inr ⟨"x/y".toList, rfl⟩) rfl (by decide) (by decide)
  ⟨h.1, h.2.2.1, (h.2.2.2.2 rfl).1, h.2.2.2.1⟩

/-- C6, as stated, fails: an authenticated request with an empty path makes
the handler panic in `path[1:]`, and an authenticated request for `/` is
forwarded when a provider is registered under the empty name. -/
theorem empty_segment_not_always_404 :
    (validateUser okEnv db0 (bearerKey
        ((mkRequest [] "Bearer k".toList).Header.Get "Authorization".toList)) =
      ("u@x".toList, true) ∧
      providerOf [] = none ∧
      (proxyHandler okEnv db0 freshWriter (mkRequest [] "Bearer k".toList)).1.isSome = false) ∧
    (providerOf "/".toList = some [] ∧
      (∃ p ∈ dbEmptyName.proxy_provider, p.provider_name = []) ∧
      proxyStatus okEnv dbEmptyName freshWriter (mkRequest "/".toList "Bearer k".toList) =
        some 200) := by
  decide

/-- C6, amended. For every registry and every authenticated request whose
path is exactly `/`, the provider name looked up is empty and slicing the path
does not panic: a response is written unless an upstream answer is relayed
whose status code lies outside 100 to 999.  When the lookup on
`proxy_provider` does not fail and no provider is registered under the empty
name, the answer is `404 Provider not found` and nothing changes in the
database. -/
theorem root_path_not_found (env : Env) (db : DB) (w : ResponseWriter) (r : Request)
    (userID : Str) (hpath : r.URL.Path = ['/'])
    (hauth : r.Header.Get "Authorization".toList ≠ [])
    (hv : validateUser env db (bearerKey (r.Header.Get "Authorization".toList)) =
      (userID, true)) :
    providerOf r.URL.Path = some [] ∧
    ((proxyHandler env db w r).1 = none →
      ∃ req resp, env.clientDo req = some resp ∧
        (resp.StatusCode < 100 ∨ resp.StatusCode > 999)) ∧
    (env.providerQueryErr = false → (∀ p ∈ db.proxy_provider, p.provider_name ≠ []) →
      proxyHandler env db w r = (httpError w "Provider not found".toList StatusNotFound, db) ∧
      (proxyHandler env db w r).1.isSome = true ∧
      proxyStatus env db w r = some 404) := by
  have h1 : providerOf r.URL.Path = some [] := by
    rw [hpath]
    decide
  refine ⟨h1, proxyHandler_response_none env db w r [] hpath, ?_⟩
  intro hq hno
  have h2 := proxyHandler_of_notFound w hauth hv h1 (queryProvider_of_unknown hq hno)
  have hc : 100 ≤ StatusNotFound ∧ StatusNotFound ≤ 999 := by decide
  refine ⟨h2, ?_, ?_⟩
  · rw [h2, httpError_of_valid w _ hc]
    rfl
  · simp only [proxyStatus, h2]
    exact httpError_status w _ hc

theorem root_path_not_found_witness :
    providerOf "/".toList = some [] ∧
      proxyStatus okEnv db0 freshWriter (mkRequest "/".toList "Bearer k".toList) = some 404 :=
  have h := root_path_not_found okEnv db0 freshWriter (mkRequest "/".toList "Bearer k".toList)
    "u@x".toList rfl (by decide) (by decide)
  ⟨h.1, (h.2.2 rfl (by decide)).2.2⟩

/-- C9 at the path `//x`: the name looked up is `/x`, not the empty name; it
contains a path separator, and when a provider is registered under it the
request is forwarded, with an empty remainder, instead of being answered
`404`. -/
theorem providerOf_double_slash :
    providerOf "//x".toList = some "/x".toList ∧
    '/' ∈ "/x".toList ∧
    providerOf "//x".toList ≠ some [] ∧
    TrimPrefix "//x".toList ('/' :: "/x".toList) = [] ∧
    proxyStatus okEnv dbSlashName freshWriter (mkRequest "//x".toList "Bearer k".toList) =
      some 200 := by
  decide

/-- Away from paths that start with two slashes, the name looked up is the
first path segment: everything after the leading `/` up to the next `/`. -/
theorem providerOf_first_segment (rest : Str) (h : rest.head? ≠ some '/') :
    providerOf ('/' :: rest) = some (rest.takeWhile (fun c => c != '/')) ∧
      '/' ∉ rest.takeWhile (fun c => c != '/') := by
  have hs : '/' ∉ rest.takeWhile (fun c => c != '/') := by
    intro hm
    have := List.mem_takeWhile_imp hm
    simp at this
  refine ⟨?_, hs⟩
  have hsplit := List.takeWhile_append_dropWhile (fun c => c != '/') rest
  cases hd : rest.dropWhile (fun c => c != '/') with
  | nil =>
    rw [hd, List.append_nil] at hsplit
    rw [hsplit]
    rw [hsplit] at hs
    simp [providerOf, Index_slash_not_mem hs]
  | cons a t =>
    have ha : a = '/' := by
      have := List.head_dropWhile_not (fun c => c != '/') rest (by rw [hd]; simp)
      simpa [hd] using this
    subst ha
    have hp : rest.takeWhile (fun c => c != '/') ≠ [] := by
      intro he
      rw [hd, he] at hsplit
      rw [← hsplit] at h
      simp at h
    have := providerOf_segment hp hs (Or.inr ⟨t, rfl⟩)
    rw [← hd, hsplit] at this
    exact this


/-! ## The access log -/

theorem validateUser_congr (env : Env) {db db2 : DB} (h : db2.proxy_user = db.proxy_user)
    (apiKey : Str) : validateUser env db2 apiKey = validateUser env db apiKey := by
  simp only [validateUser, queryUser, h]

theorem queryProvider_congr (env : Env) {db db2 : DB}
    (h : db2.proxy_provider = db.proxy_provider) (provider : Str) :
    queryProvider env db2 provider = queryProvider env db provider := by
  simp only [queryProvider, h]

/-- The database after a request is the one before it, or the one before it
after `logAccess`; the latter exactly when the caller was authenticated and
the provider found. -/
theorem proxyHandler_db (env : Env) (db : DB) (w : ResponseWriter) (r : Request) :
    ((proxyHandler env db w r).2 = db ∧
      ¬ (r.Header.Get "Authorization".toList ≠ [] ∧ ∃ userID provider apiURL apiKey,
        validateUser env db (bearerKey (r.Header.Get "Authorization".toList)) = (userID, true) ∧
        providerOf r.URL.Path = some provider ∧
        queryProvider env db provider = .row (apiURL, apiKey))) ∨
    (r.Header.Get "Authorization".toList ≠ [] ∧ ∃ userID provider apiURL apiKey,
      validateUser env db (bearerKey (r.Header.Get "Authorization".toList)) = (userID, true) ∧
      providerOf r.URL.Path = some provider ∧
      queryProvider env db provider = .row (apiURL, apiKey) ∧
      (proxyHandler env db w r).2 = logAccess env db userID r.URL.Path) := by
  by_cases hne : r.Header.Get "Authorization".toList = []
  · exact Or.inl ⟨by rw [proxyHandler_of_empty env db w hne], fun h => h.1 hne⟩
  rcases validateUser_cases env db (bearerKey (r.Header.Get "Authorization".toList)) with
    hv | ⟨userID, hv⟩
  · refine Or.inl ⟨by rw [proxyHandler_of_invalid env db w hv], ?_⟩
    rintro ⟨_, u, _, _, _, hu, _⟩
    rw [hv] at hu
    cases hu
  cases hp : providerOf r.URL.Path with
  | none =>
    refine Or.inl ⟨by rw [proxyHandler_of_panic w hne hv hp], ?_⟩
    rintro ⟨_, _, _, _, _, _, h, _⟩
    cases h
  | some provider =>
    cases hq : queryProvider env db provider with
    | errNoRows =>
      refine Or.inl ⟨by rw [proxyHandler_of_notFound w hne hv hp hq], ?_⟩
      rintro ⟨_, _, provider2, _, _, _, h, h2⟩
      cases h
      rw [hq] at h2
      cases h2
    | err =>
      refine Or.inl ⟨by rw [proxyHandler_of_providerErr w hne hv hp hq], ?_⟩
      rintro ⟨_, _, provider2, _, _, _, h, h2⟩
      cases h
      rw [hq] at h2
      cases h2
    | row a =>
      obtain ⟨apiURL, apiKey⟩ := a
      refine Or.inr ⟨hne, userID, provider, apiURL, apiKey, hv, rfl, hq, ?_⟩
      cases hf : forwardRequest env r apiURL apiKey (TrimPrefix r.URL.Path ('/' :: provider)) with
      | none => rw [proxyHandler_of_forwardErr w hne hv hp hq hf]
      | some resp => rw [proxyHandler_of_relay w hne hv hp hq hf]

/-- C5, as stated, fails: the caller is authenticated and the provider is
found, yet the failing insert leaves the access log as it was, while the
request is still forwarded and answered. -/
theorem no_entry_when_insert_fails :
    validateUser logErrEnv db0 (bearerKey
        ((mkRequest "/p/x".toList "Bearer k".toList).Header.Get "Authorization".toList)) =
      ("u@x".toList, true) ∧
    providerOf "/p/x".toList = some "p".toList ∧
    queryProvider logErrEnv db0 "p".toList = .row ("http://up".toList, "K".toList) ∧
    (proxyHandler logErrEnv db0 freshWriter
      (mkRequest "/p/x".toList "Bearer k".toList)).2.proxy_access_log = db0.proxy_access_log ∧
    proxyStatus logErrEnv db0 freshWriter (mkRequest "/p/x".toList "Bearer k".toList) =
      some 200 := by
  decide

/-- C5, amended. Handling a request never touches the two registries and
either leaves the access log as it was or appends one entry to it.  When the
caller is authenticated, the provider is found and the insert does not fail,
the log grows by exactly one entry holding the caller's user id and the full
request path, whether or not the forward succeeds; the log changes in no other
case.  Two such requests in a row add two entries. -/
theorem access_log_effect (env : Env) (db : DB) (w : ResponseWriter) (r : Request) :
    (proxyHandler env db w r).2.proxy_user = db.proxy_user ∧
    (proxyHandler env db w r).2.proxy_provider = db.proxy_provider ∧
    ((proxyHandler env db w r).2.proxy_access_log = db.proxy_access_log ∨
      ∃ e, (proxyHandler env db w r).2.proxy_access_log = db.proxy_access_log ++ [e]) ∧
    (∀ userID provider apiURL apiKey,
      r.Header.Get "Authorization".toList ≠ [] →
      validateUser env db (bearerKey (r.Header.Get "Authorization".toList)) = (userID, true) →
      providerOf r.URL.Path = some provider →
      queryProvider env db provider = .row (apiURL, apiKey) →
      env.logExecErr = false →
      (proxyHandler env db w r).2.proxy_access_log =
          db.proxy_access_log ++ [⟨userID, env.now, r.URL.Path⟩] ∧
        ∀ (env2 : Env) (w2 : ResponseWriter),
          validateUser env2 db (bearerKey (r.Header.Get "Authorization".toList)) =
            (userID, true) →
          queryProvider env2 db provider = .row (apiURL, apiKey) →
          env2.logExecErr = false →
          (proxyHandler env2 (proxyHandler env db w r).2 w2 r).2.proxy_access_log =
            db.proxy_access_log ++
              [⟨userID, env.now, r.URL.Path⟩, ⟨userID, env2.now, r.URL.Path⟩]) ∧
    ((proxyHandler env db w r).2.proxy_access_log ≠ db.proxy_access_log →
      env.logExecErr = false ∧ r.Header.Get "Authorization".toList ≠ [] ∧
      ∃ userID provider apiURL apiKey,
        validateUser env db (bearerKey (r.Header.Get "Authorization".toList)) = (userID, true) ∧
        providerOf r.URL.Path = some provider ∧
        queryProvider env db provider = .row (apiURL, apiKey)) := by
  have key : ∀ (env : Env) (db : DB) (w : ResponseWriter) (userID provider apiURL apiKey : Str),
      r.Header.Get "Authorization".toList ≠ [] →
      validateUser env db (bearerKey (r.Header.Get "Authorization".toList)) = (userID, true) →
      providerOf r.URL.Path = some provider →
      queryProvider env db provider = .row (apiURL, apiKey) →
      (proxyHandler env db w r).2 = logAccess env db userID r.URL.Path := by
    intro env db w userID provider apiURL apiKey hne hv hp hq
    cases hf : forwardRequest env r apiURL apiKey (TrimPrefix r.URL.Path ('/' :: provider)) with
    | none => rw [proxyHandler_of_forwardErr w hne hv hp hq hf]
    | some resp => rw [proxyHandler_of_relay w hne hv hp hq hf]
  have hlog : ∀ (env : Env) (db : DB) (userID endpoint : Str),
      (logAccess env db userID endpoint).proxy_user = db.proxy_user ∧
      (logAccess env db userID endpoint).proxy_provider = db.proxy_provider ∧
      (logAccess env db userID endpoint).proxy_access_log =
        if env.logExecErr then db.proxy_access_log
        else db.proxy_access_log ++ [⟨userID, env.now, endpoint⟩] := by
    intro env db userID endpoint
    unfold logAccess
    cases env.logExecErr <;> simp
  refine ⟨?_, ?_, ?_, ?_, ?_⟩
  · rcases proxyHandler_db env db w r with ⟨h, _⟩ | ⟨_, u, p, a, k, _, _, _, h⟩
    · rw [h]
    · rw [h, (hlog env db u r.URL.Path).1]
  · rcases proxyHandler_db env db w r with ⟨h, _⟩ | ⟨_, u, p, a, k, _, _, _, h⟩
    · rw [h]
    · rw [h, (hlog env db u r.URL.Path).2.1]
  · rcases proxyHandler_db env db w r with ⟨h, _⟩ | ⟨_, u, p, a, k, _, _, _, h⟩
    · exact Or.inl (by rw [h])
    · rw [h, (hlog env db u r.URL.Path).2.2]
      cases env.logExecErr
      · exact Or.inr ⟨⟨u, env.now, r.URL.Path⟩, by simp⟩
      · exact Or.inl (by simp)
  · intro userID provider apiURL apiKey hne hv hp hq hl
    have h1 := key env db w userID provider apiURL apiKey hne hv hp hq
    have hfirst : (proxyHandler env db w r).2.proxy_access_log =
        db.proxy_access_log ++ [⟨userID, env.now, r.URL.Path⟩] := by
      rw [h1, (hlog env db userID r.URL.Path).2.2, hl]
      simp
    refine ⟨hfirst, ?_⟩
    intro env2 w2 hv2 hq2 hl2
    have hu : (proxyHandler env db w r).2.proxy_user = db.proxy_user := by
      rw [h1, (hlog env db userID r.URL.Path).1]
    have hpv : (proxyHandler env db w r).2.proxy_provider = db.proxy_provider := by
      rw [h1, (hlog env db userID r.URL.Path).2.1]
    have h2 := key env2 (proxyHandler env db w r).2 w2 userID provider apiURL apiKey hne
      (by rw [validateUser_congr env2 hu]; exact hv2) hp
      (by rw [queryProvider_congr env2 hpv]; exact hq2)
    rw [h2, (hlog env2 _ userID r.URL.Path).2.2, hl2, hfirst]
    simp
  · intro hchg
    rcases proxyHandler_db env db w r with ⟨h, _⟩ | ⟨hne, u, p, a, k, hv, hp, hq, h⟩
    · exact absurd (by rw [h]) hchg
    · refine ⟨?_, hne, u, p, a, k, hv, hp, hq⟩
      cases hl : env.logExecErr with
      | false => rfl
      | true =>
        exfalso
        apply hchg
        rw [h, (hlog env db u r.URL.Path).2.2, hl]
        simp

theorem access_log_effect_witness :
    (proxyHandler downEnv db0 freshWriter
        (mkRequest "/p/x".toList "Bearer k".toList)).2.proxy_access_log =
      [⟨"u@x".toList, 7, "/p/x".toList⟩] ∧
    proxyStatus downEnv db0 freshWriter (mkRequest "/p/x".toList "Bearer k".toList) =
      some 500 ∧
    (proxyHandler okEnv (proxyHandler downEnv db0 freshWriter
        (mkRequest "/p/x".toList "Bearer k".toList)).2 freshWriter
        (mkRequest "/p/x".toList "Bearer k".toList)).2.proxy_access_log =
      [⟨"u@x".toList, 7, "/p/x".toList⟩, ⟨"u@x".toList, 7, "/p/x".toList⟩] :=
  have h := (access_log_effect downEnv db0 freshWriter
    (mkRequest "/p/x".toList "Bearer k".toList)).2.2.2.1 "u@x".toList "p".toList
    "http://up".toList "K".toList (by decide) (by decide) (by decide) (by decide) rfl
  ⟨h.1, by decide, h.2 okEnv freshWriter (by decide) (by decide) rfl⟩

/-! ## White space and letter case in the `Authorization` value -/

/-- A value that does not start with `Bearer ` is looked up as it is, apart
from the white space at its ends. -/
theorem bearerKey_of_not_HasPrefix {h : Str} (hp : HasPrefix h "Bearer ".toList = false) :
    bearerKey h = TrimSpace h := by
  simp only [bearerKey, TrimPrefix, hp]
  rfl

/-- A seven-character prefix other than `Bearer ` is not removed. -/
theorem HasPrefix_of_other_word {P : Str} (hlen : P.length = 7) (hne : P ≠ "Bearer ".toList)
    (c : Str) : HasPrefix (P ++ c) "Bearer ".toList = false := by
  cases hb : HasPrefix (P ++ c) "Bearer ".toList with
  | false => rfl
  | true =>
    exfalso
    unfold HasPrefix at hb
    rw [List.isPrefixOf_iff_prefix] at hb
    obtain ⟨t, ht⟩ := hb
    have h7 : ("Bearer ".toList ++ t).take 7 = (P ++ c).take 7 := by rw [ht]
    rw [List.take_left' hlen, List.take_left' (by decide)] at h7
    exact hne h7.symm

/-- C8, as stated, fails: white space in front of the prefix (here a
no-break space, which `net/http` leaves in the header value) keeps the prefix
from being removed, so the token looked up is `Bearer k` and the caller that
`Bearer k` authenticates is rejected; and a value with the prefix `bearer ` is
accepted when the whole value happens to be a registered credential. -/
theorem leading_space_rejected :
    ((∀ c ∈ [Char.ofNat 0xA0], IsSpace c = true) ∧
      validateUser okEnv db0 (bearerKey "Bearer k".toList) = ("u@x".toList, true) ∧
      bearerKey ([Char.ofNat 0xA0] ++ "Bearer ".toList ++ "k".toList) = "Bearer k".toList ∧
      validateUser okEnv db0
        (bearerKey ([Char.ofNat 0xA0] ++ "Bearer ".toList ++ "k".toList)) = ([], false) ∧
      proxyStatus okEnv db0 freshWriter
        (mkRequest "/p/x".toList ([Char.ofNat 0xA0] ++ "Bearer ".toList ++ "k".toList)) =
          some 401) ∧
    ((∃ u ∈ dbBearerName.proxy_user, u.api_key = "k".toList) ∧
      validateUser okEnv dbBearerName (bearerKey ("bearer ".toList ++ "k".toList)) =
        ("v@x".toList, true) ∧
      proxyStatus okEnv dbBearerName freshWriter
        (mkRequest "/p/x".toList ("bearer ".toList ++ "k".toList)) = some 200) := by
  decide

/-- C8, amended. White space after the prefix `Bearer ` and at the end of
the header value is ignored: for white-space strings `w1` and `w2` the value
`Bearer ` `w1` `c` `w2` is looked up, and so authenticated, exactly as
`Bearer ` `c` is.  The prefix is case-sensitive: a value that starts with any
other seven characters, in particular with `Bearer ` in another letter case,
keeps them in the token that is looked up, and is rejected with `401` unless
the whole trimmed value is itself a registered credential. -/
theorem bearer_whitespace_and_case (env : Env) (db : DB) (w : ResponseWriter) (c : Str) :
    (∀ w1 w2 : Str, (∀ ch ∈ w1, IsSpace ch = true) → (∀ ch ∈ w2, IsSpace ch = true) →
      bearerKey ("Bearer ".toList ++ (w1 ++ c ++ w2)) = bearerKey ("Bearer ".toList ++ c) ∧
      validateUser env db (bearerKey ("Bearer ".toList ++ (w1 ++ c ++ w2))) =
        validateUser env db (bearerKey ("Bearer ".toList ++ c))) ∧
    (∀ P : Str, P.length = 7 → P ≠ "Bearer ".toList →
      bearerKey (P ++ c) = TrimSpace (P ++ c) ∧
      ((∀ u ∈ db.proxy_user, u.api_key ≠ TrimSpace (P ++ c)) →
        validateUser env db (bearerKey (P ++ c)) = ([], false) ∧
        ∀ r : Request, r.Header.Get "Authorization".toList = P ++ c →
          proxyStatus env db w r = some 401)) := by
  refine ⟨?_, ?_⟩
  · intro w1 w2 h1 h2
    have hk : bearerKey ("Bearer ".toList ++ (w1 ++ c ++ w2)) =
        bearerKey ("Bearer ".toList ++ c) := by
      unfold bearerKey
      rw [TrimPrefix_append, TrimPrefix_append, TrimSpace_surrounded h1 h2]
    exact ⟨hk, by rw [hk]⟩
  · intro P hlen hne
    have hb : bearerKey (P ++ c) = TrimSpace (P ++ c) :=
      bearerKey_of_not_HasPrefix (HasPrefix_of_other_word hlen hne c)
    refine ⟨hb, ?_⟩
    intro hno
    have hv : validateUser env db (bearerKey (P ++ c)) = ([], false) := by
      rw [hb]
      exact validateUser_of_unknown env hno
    refine ⟨hv, ?_⟩
    intro r hr
    have := proxyHandler_of_invalid env db w (r := r) (by rw [hr]; exact hv)
    simp only [proxyStatus, this]
    exact httpError_status w _ (show 100 ≤ StatusUnauthorized ∧ StatusUnauthorized ≤ 999 by decide)

theorem bearer_whitespace_and_case_witness :
    validateUser okEnv db0 (bearerKey ("Bearer ".toList ++ (" \t".toList ++ "k".toList ++
        " ".toList))) = validateUser okEnv db0 (bearerKey ("Bearer ".toList ++ "k".toList)) ∧
      validateUser okEnv db0 (bearerKey ("BEARER ".toList ++ "k".toList)) = ([], false) ∧
      proxyStatus okEnv db0 freshWriter
        (mkRequest "/p/x".toList ("bearer ".toList ++ "k".toList)) = some 401 :=
  have h := bearer_whitespace_and_case okEnv db0 freshWriter "k".toList
  ⟨(h.1 " \t".toList " ".toList (by decide) (by decide)).2,
    ((h.2 "BEARER ".toList (by decide) (by decide)).2 (by decide)).1,
    ((h.2 "bearer ".toList (by decide) (by decide)).2 (by decide)).2 _ (by decide)⟩

end ModelApiProxy
